import Mathlib

/-!
Verification of the recipe application core (search, text similarity, review
aggregation, bookmark/folder store) against its natural-language specification.

Strings from the TypeScript source are modelled as `List Char`; JavaScript
numbers holding integers are modelled as `Int`/`Nat` and ratings as `ℚ`.
Record ids (time-based string tokens in the source) are modelled as `String`.
-/

/-! ## TextSimilarity: Levenshtein distance

The source (src/src/contexts/RecipeContext.tsx, getLevenshteinDistance) fills a
DP matrix with `matrix[0][i] = i`, `matrix[j][0] = j` and
`matrix[j][i] = min(matrix[j][i-1] + 1, matrix[j-1][i] + 1,
matrix[j-1][i-1] + indicator)` where `indicator` is 0 when the compared
characters agree and 1 otherwise, returning `matrix[b.length][a.length]`.
We embed this as the unit-cost Levenshtein distance; the lemmas
`getLevenshteinDistance_nil_left`, `getLevenshteinDistance_nil_right` and
`getLevenshteinDistance_cons_cons` below show that the embedding satisfies
exactly that recurrence (base row, base column, and the three-way min step),
which determines the function uniquely. -/
def getLevenshteinDistance (a b : List Char) : Nat :=
  levenshtein Levenshtein.defaultCost a b

theorem getLevenshteinDistance_nil_left (b : List Char) :
    getLevenshteinDistance [] b = b.length := by
  induction b with
  | nil => rfl
  | cons y ys ih =>
    simp [getLevenshteinDistance] at ih ⊢
    omega

theorem getLevenshteinDistance_nil_right (a : List Char) :
    getLevenshteinDistance a [] = a.length := by
  induction a with
  | nil => rfl
  | cons x xs ih =>
    simp [getLevenshteinDistance] at ih ⊢
    omega

theorem getLevenshteinDistance_cons_cons (x : Char) (a : List Char) (y : Char) (b : List Char) :
    getLevenshteinDistance (x :: a) (y :: b) =
      min (getLevenshteinDistance a (y :: b) + 1)
        (min (getLevenshteinDistance (x :: a) b + 1)
          (getLevenshteinDistance a b + if x = y then 0 else 1)) := by
  simp [getLevenshteinDistance, Nat.add_comm]

/-! ### Alignments

An alignment witnesses an edit script between two character lists; its cost
counts the substitutions, deletions and insertions used.  The Levenshtein
distance is the least alignment cost, which yields the metric laws. -/
inductive Aligns : List Char → List Char → Nat → Prop where
  | nil : Aligns [] [] 0
  | same (x : Char) {xs ys : List Char} {n : Nat} :
      Aligns xs ys n → Aligns (x :: xs) (x :: ys) n
  | subst (x y : Char) {xs ys : List Char} {n : Nat} :
      Aligns xs ys n → Aligns (x :: xs) (y :: ys) (n + 1)
  | del (x : Char) {xs ys : List Char} {n : Nat} :
      Aligns xs ys n → Aligns (x :: xs) ys (n + 1)
  | ins (y : Char) {xs ys : List Char} {n : Nat} :
      Aligns xs ys n → Aligns xs (y :: ys) (n + 1)

theorem aligns_refl (xs : List Char) : Aligns xs xs 0 := by
  induction xs with
  | nil => exact .nil
  | cons x xs ih => exact .same x ih

theorem aligns_nil_left (ys : List Char) : Aligns [] ys ys.length := by
  induction ys with
  | nil => exact .nil
  | cons y ys ih => exact .ins y ih

theorem aligns_nil_right (xs : List Char) : Aligns xs [] xs.length := by
  induction xs with
  | nil => exact .nil
  | cons x xs ih => exact .del x ih

theorem aligns_symm {xs ys : List Char} {n : Nat} (h : Aligns xs ys n) : Aligns ys xs n := by
  induction h with
  | nil => exact .nil
  | same x _ ih => exact .same x ih
  | subst x y _ ih => exact .subst y x ih
  | del x _ ih => exact .ins x ih
  | ins y _ ih => exact .del y ih

theorem lev_del_le (x : Char) (xs ys : List Char) :
    getLevenshteinDistance (x :: xs) ys ≤ getLevenshteinDistance xs ys + 1 := by
  cases ys with
  | nil => simp [getLevenshteinDistance_nil_right]
  | cons y ys => rw [getLevenshteinDistance_cons_cons]; omega

theorem lev_ins_le (y : Char) (xs ys : List Char) :
    getLevenshteinDistance xs (y :: ys) ≤ getLevenshteinDistance xs ys + 1 := by
  cases xs with
  | nil => simp [getLevenshteinDistance_nil_left]
  | cons x xs => rw [getLevenshteinDistance_cons_cons]; omega

theorem lev_same_le (x : Char) (xs ys : List Char) :
    getLevenshteinDistance (x :: xs) (x :: ys) ≤ getLevenshteinDistance xs ys := by
  rw [getLevenshteinDistance_cons_cons]
  simp

theorem lev_subst_le (x y : Char) (xs ys : List Char) :
    getLevenshteinDistance (x :: xs) (y :: ys) ≤ getLevenshteinDistance xs ys + 1 := by
  rw [getLevenshteinDistance_cons_cons]
  have : (if x = y then 0 else 1) ≤ 1 := by split <;> omega
  omega

theorem lev_le_of_aligns {xs ys : List Char} {n : Nat} (h : Aligns xs ys n) :
    getLevenshteinDistance xs ys ≤ n := by
  induction h with
  | nil => simp [getLevenshteinDistance_nil_left]
  | same x _ ih => exact le_trans (lev_same_le ..) ih
  | subst x y _ ih => exact le_trans (lev_subst_le ..) (by omega)
  | del x _ ih => exact le_trans (lev_del_le ..) (by omega)
  | ins y _ ih => exact le_trans (lev_ins_le ..) (by omega)

theorem aligns_lev (xs ys : List Char) : Aligns xs ys (getLevenshteinDistance xs ys) := by
  induction xs generalizing ys with
  | nil => rw [getLevenshteinDistance_nil_left]; exact aligns_nil_left ys
  | cons x xs ih =>
    induction ys with
    | nil => rw [getLevenshteinDistance_nil_right]; exact aligns_nil_right _
    | cons y ys ih2 =>
      rw [getLevenshteinDistance_cons_cons]
      rcases Nat.lt_trichotomy (getLevenshteinDistance xs (y :: ys) + 1)
          (min (getLevenshteinDistance (x :: xs) ys + 1)
            (getLevenshteinDistance xs ys + if x = y then 0 else 1)) with hlt | heq | hgt
      · rw [min_eq_left (le_of_lt hlt)]
        exact .del x (ih (y :: ys))
      · rw [min_eq_left (le_of_eq heq)]
        exact .del x (ih (y :: ys))
      · rw [min_eq_right (le_of_lt hgt)]
        rcases le_total (getLevenshteinDistance (x :: xs) ys + 1)
            (getLevenshteinDistance xs ys + if x = y then 0 else 1) with hle | hge
        · rw [min_eq_left hle]
          exact .ins y ih2
        · rw [min_eq_right hge]
          by_cases hxy : x = y
          · subst hxy
            simpa using .same x (ih ys)
          · simp only [if_neg hxy]
            exact .subst x y (ih ys)

theorem aligns_comp (fuel : Nat) :
    ∀ (xs ys zs : List Char) (m n : Nat),
      xs.length + ys.length + zs.length ≤ fuel →
      Aligns xs ys m → Aligns ys zs n →
      ∃ k, k ≤ m + n ∧ Aligns xs zs k := by
  induction fuel with
  | zero =>
    intro xs ys zs m n hlen h1 h2
    have hx : xs = [] := by cases xs <;> simp at hlen ⊢
    have hy : ys = [] := by cases ys <;> simp at hlen ⊢
    have hz : zs = [] := by cases zs <;> simp at hlen ⊢
    subst hx; subst hy; subst hz
    cases h1; cases h2
    exact ⟨0, Nat.le_refl 0, .nil⟩
  | succ fuel ih =>
    intro xs ys zs m n hlen h1 h2
    cases h1 with
    | nil => exact ⟨n, by omega, h2⟩
    | del x h1' =>
      obtain ⟨k, hk, hA⟩ := ih _ _ _ _ _ (by simp at hlen ⊢; omega) h1' h2
      exact ⟨k + 1, by omega, .del x hA⟩
    | same x h1' =>
      cases h2 with
      | same y h2' =>
        obtain ⟨k, hk, hA⟩ := ih _ _ _ _ _ (by simp at hlen ⊢; omega) h1' h2'
        exact ⟨k, by omega, .same x hA⟩
      | subst y z h2' =>
        obtain ⟨k, hk, hA⟩ := ih _ _ _ _ _ (by simp at hlen ⊢; omega) h1' h2'
        exact ⟨k + 1, by omega, .subst x z hA⟩
      | del y h2' =>
        obtain ⟨k, hk, hA⟩ := ih _ _ _ _ _ (by simp at hlen ⊢; omega) h1' h2'
        exact ⟨k + 1, by omega, .del x hA⟩
      | ins z h2' =>
        obtain ⟨k, hk, hA⟩ := ih _ _ _ _ _ (by simp at hlen ⊢; omega) (.same x h1') h2'
        exact ⟨k + 1, by omega, .ins z hA⟩
    | subst x y h1' =>
      cases h2 with
      | same w h2' =>
        obtain ⟨k, hk, hA⟩ := ih _ _ _ _ _ (by simp at hlen ⊢; omega) h1' h2'
        exact ⟨k + 1, by omega, .subst x y hA⟩
      | subst w z h2' =>
        obtain ⟨k, hk, hA⟩ := ih _ _ _ _ _ (by simp at hlen ⊢; omega) h1' h2'
        exact ⟨k + 1, by omega, .subst x z hA⟩
      | del w h2' =>
        obtain ⟨k, hk, hA⟩ := ih _ _ _ _ _ (by simp at hlen ⊢; omega) h1' h2'
        exact ⟨k + 1, by omega, .del x hA⟩
      | ins z h2' =>
        obtain ⟨k, hk, hA⟩ := ih _ _ _ _ _ (by simp at hlen ⊢; omega) (.subst x y h1') h2'
        exact ⟨k + 1, by omega, .ins z hA⟩
    | ins y h1' =>
      cases h2 with
      | same w h2' =>
        obtain ⟨k, hk, hA⟩ := ih _ _ _ _ _ (by simp at hlen ⊢; omega) h1' h2'
        exact ⟨k + 1, by omega, .ins y hA⟩
      | subst w z h2' =>
        obtain ⟨k, hk, hA⟩ := ih _ _ _ _ _ (by simp at hlen ⊢; omega) h1' h2'
        exact ⟨k + 1, by omega, .ins z hA⟩
      | del w h2' =>
        obtain ⟨k, hk, hA⟩ := ih _ _ _ _ _ (by simp at hlen ⊢; omega) h1' h2'
        exact ⟨k, by omega, hA⟩
      | ins z h2' =>
        obtain ⟨k, hk, hA⟩ := ih _ _ _ _ _ (by simp at hlen ⊢; omega) (.ins y h1') h2'
        exact ⟨k + 1, by omega, .ins z hA⟩

/-- Claim C9: getLevenshteinDistance satisfies the metric axioms: it is
symmetric, it vanishes on equal strings, and it satisfies the triangle
inequality. -/
theorem getLevenshteinDistance_metric (a b c : List Char) :
    getLevenshteinDistance a b = getLevenshteinDistance b a ∧
    getLevenshteinDistance a a = 0 ∧
    getLevenshteinDistance a b ≤ getLevenshteinDistance a c + getLevenshteinDistance c b := by
  refine ⟨?_, ?_, ?_⟩
  · exact le_antisymm (lev_le_of_aligns (aligns_symm (aligns_lev b a)))
      (lev_le_of_aligns (aligns_symm (aligns_lev a b)))
  · exact Nat.le_zero.mp (lev_le_of_aligns (aligns_refl a))
  · obtain ⟨k, hk, hA⟩ := aligns_comp (a.length + c.length + b.length) a c b
      (getLevenshteinDistance a c) (getLevenshteinDistance c b) le_rfl
      (aligns_lev a c) (aligns_lev c b)
    exact le_trans (lev_le_of_aligns hA) hk

/-! ## TextSimilarity: fuzzy matching (isFuzzyMatch)

Helper string operations modelling the JavaScript primitives used by
isFuzzyMatch (src/src/contexts/RecipeContext.tsx lines 97-125):
lower-casing, substring containment (String.prototype.includes),
splitting on whitespace runs (String.prototype.split with a whitespace
regular expression) and trimming. -/

/-- Lower-casing a string, as String.prototype.toLowerCase does per character
(all characters appearing in the claims are ASCII, where the two agree). -/
def toLowerL (s : List Char) : List Char := s.map Char.toLower

/-- Whitespace class used by the source regular expressions and trim; the
JavaScript class also covers rarer Unicode space characters, which never
occur in the claims considered here. -/
def isWs (c : Char) : Bool :=
  c = ' ' || c = '\t' || c = '\n' || c = '\r' || c = '\x0b' || c = '\x0c'

/-- Computes whether needle occurs as a contiguous substring of hay starting
at position zero. -/
def headOccurs : List Char → List Char → Bool
  | _, [] => true
  | [], _ :: _ => false
  | a :: as, b :: bs => a = b && headOccurs as bs

/-- Embedding of String.prototype.includes: needle occurs as a contiguous
substring of hay. -/
def listContains (hay needle : List Char) : Bool :=
  headOccurs hay needle ||
    match hay with
    | [] => false
    | _ :: t => listContains t needle

/-- Embedding of String.prototype.trim: remove leading and trailing
whitespace. -/
def trimWs (s : List Char) : List Char :=
  ((s.dropWhile isWs).reverse.dropWhile isWs).reverse

mutual
/-- State of the whitespace splitter while reading a token; cur holds the
token read so far, reversed. -/
def splitWsGo : List Char → List Char → List (List Char)
  | [], cur => [cur.reverse]
  | c :: rest, cur =>
    if isWs c then cur.reverse :: splitWsSep rest else splitWsGo rest (c :: cur)

/-- State of the whitespace splitter inside a separator run (the run is
consumed as a single separator, as the regular expression does). -/
def splitWsSep : List Char → List (List Char)
  | [] => [[]]
  | c :: rest => if isWs c then splitWsSep rest else splitWsGo rest [c]
end

/-- Embedding of s.split on a whitespace-run regular expression, as used for
the word lists in isFuzzyMatch: tokens between maximal whitespace runs, with
an empty token at either end when the string starts or ends with whitespace. -/
def splitWs (s : List Char) : List (List Char) := splitWsGo s []

/-- Embedding of isFuzzyMatch (src/src/contexts/RecipeContext.tsx lines
97-125) at the default tolerance 0.2 (the only tolerance the source ever
uses).  Empty input returns false; containment in either direction (after
lower-casing) returns true; otherwise words of the target of length at least
3 are compared with words of the source of length at least 3, accepting at
Levenshtein distance at most max(floor(target.length * 0.2), 1).  The floor
of length * 0.2 is written length / 5 (natural division); for every natural
length the double-precision computation in the source rounds to the same
value. -/
def isFuzzyMatch (source target : List Char) : Bool :=
  if source = [] || target = [] then false
  else
    let sourceLower := toLowerL source
    let targetLower := toLowerL target
    if listContains sourceLower targetLower || listContains targetLower sourceLower then true
    else
      let maxDistance := max (targetLower.length / 5) 1
      (splitWs targetLower).any fun word =>
        if word.length < 3 then false
        else (splitWs sourceLower).any fun sourceWord =>
          if sourceWord.length < 3 then false
          else decide (getLevenshteinDistance sourceWord word ≤ maxDistance)

/-! ## RecipeRepository data model

The Recipe record (src/src/contexts/RecipeContext.tsx lines 4-33) is modelled
with the fields the claims touch: RecipeId, Name, Description, Keywords,
RecipeIngredientParts, AggregatedRating and ReviewCount.  The remaining
fields (author, times, images, category, nutrition, servings, yield,
instructions) are carried unchanged by every operation considered here and
are omitted.  AggregatedRating is modelled in ℚ (the source uses a
double-precision number; the claims about it are stated up to
floating-point tolerance). -/
structure Recipe where
  RecipeId : Int
  Name : List Char
  Description : List Char
  Keywords : List (List Char)
  RecipeIngredientParts : List (List Char)
  AggregatedRating : ℚ
  ReviewCount : Int
deriving DecidableEq, Repr

/-- Review record (src/src/contexts/RecipeContext.tsx lines 35-44), with the
fields the claims touch; AuthorId, AuthorName, the review text and the two
date stamps are omitted as no claim mentions them. -/
structure Review where
  ReviewId : Int
  RecipeId : Int
  Rating : ℚ
deriving DecidableEq, Repr

/-! ## SearchEngine (searchRecipesWithFuzzy, lines 276-319) -/

/-- Exact-pass predicate of searchRecipesWithFuzzy: case-insensitive
substring match of the (already lowered and trimmed) query against Name,
Description, any Keywords entry or any RecipeIngredientParts entry, in the
order of the source. -/
def recipeExactMatch (queryLower : List Char) (r : Recipe) : Bool :=
  listContains (toLowerL r.Name) queryLower ||
  listContains (toLowerL r.Description) queryLower ||
  r.Keywords.any (fun k => listContains (toLowerL k) queryLower) ||
  r.RecipeIngredientParts.any (fun i => listContains (toLowerL i) queryLower)

/-- Fuzzy-pass predicate of searchRecipesWithFuzzy: isFuzzyMatch applied to
Name, Description (when non-empty), RecipeIngredientParts and Keywords, in
the order of the source. -/
def recipeFuzzyMatch (queryLower : List Char) (r : Recipe) : Bool :=
  isFuzzyMatch (toLowerL r.Name) queryLower ||
  (!r.Description.isEmpty && isFuzzyMatch (toLowerL r.Description) queryLower) ||
  r.RecipeIngredientParts.any (fun i => isFuzzyMatch (toLowerL i) queryLower) ||
  r.Keywords.any (fun k => isFuzzyMatch (toLowerL k) queryLower)

/-- Embedding of searchRecipesWithFuzzy (src/src/contexts/RecipeContext.tsx
lines 276-319): lower-case and trim the query; an empty result of that
returns the first 20 recipes; otherwise the exact pass wins outright when
non-empty, else the fuzzy pass runs. -/
def searchRecipesWithFuzzy (query : List Char) (recipesToSearch : List Recipe) : List Recipe :=
  let queryLower := trimWs (toLowerL query)
  if queryLower = [] then recipesToSearch.take 20
  else
    let exactMatches := recipesToSearch.filter (recipeExactMatch queryLower)
    if 0 < exactMatches.length then exactMatches
    else recipesToSearch.filter (recipeFuzzyMatch queryLower)

/-! ## RecipeRepository: create (addRecipe, lines 321-376) -/

/-- Input of addRecipe, restricted to the fields that reach the modelled
Recipe record (the free-text instruction and keyword splitting, time fields
and nutrition zero-fill of the source touch only omitted fields). -/
structure AddRecipeInput where
  name : List Char
  description : List Char
  keywords : List (List Char)
  ingredientParts : List (List Char)

/-- Embedding of Math.max over the mapped RecipeIds of a non-empty
collection (the empty case is guarded in addRecipe and never used). -/
def maxRecipeId : List Int → Int
  | [] => 0
  | i :: is => is.foldl max i

/-- Embedding of addRecipe (src/src/contexts/RecipeContext.tsx lines
321-376): the new RecipeId is one more than the maximum existing id when the
collection is non-empty, otherwise one more than zero; the new recipe is
prepended, with rating and review count zero-initialised.  Returns the pair
of the new id and the updated collection. -/
def addRecipe (input : AddRecipeInput) (recipes : List Recipe) : Int × List Recipe :=
  let maxId := if 0 < recipes.length then maxRecipeId (recipes.map (fun r => r.RecipeId)) else 0
  let newId := maxId + 1
  let newRecipe : Recipe :=
    { RecipeId := newId
      Name := input.name
      Description := input.description
      Keywords := input.keywords
      RecipeIngredientParts := input.ingredientParts
      AggregatedRating := 0
      ReviewCount := 0 }
  (newId, newRecipe :: recipes)

/-! ## ReviewLedger (addReview and the load-time aggregate recompute) -/

/-- Shared mutable state of RecipeProvider: the recipe collection and the
review collection. -/
structure RecipeState where
  recipes : List Recipe
  reviews : List Review
deriving Repr

/-- Sum of the ratings of a list of reviews, as the source reduce with
initial value 0. -/
def ratingSum (l : List Review) : ℚ := l.foldl (fun sum r => sum + r.Rating) 0

/-- Embedding of the load-time aggregate recomputation inside loadData
(src/src/contexts/RecipeContext.tsx lines 199-214): every recipe gets
ReviewCount set to the number of loaded reviews with its RecipeId, and
AggregatedRating set to their mean when that number is positive, keeping the
existing rating otherwise. -/
def recomputeAggregates (reviewsData : List Review) (recipes : List Recipe) : List Recipe :=
  recipes.map fun recipe =>
    let recipeReviews := reviewsData.filter (fun r => r.RecipeId == recipe.RecipeId)
    let reviewCount := recipeReviews.length
    let aggregatedRating :=
      if 0 < reviewCount then ratingSum recipeReviews / (reviewCount : ℚ)
      else recipe.AggregatedRating
    { recipe with AggregatedRating := aggregatedRating, ReviewCount := (reviewCount : Int) }

/-- Embedding of the loadData path that concerns reviews (lines 195-217):
when the seed review list is non-empty it is installed and the aggregates of
every recipe are recomputed from it; otherwise the review list stays empty
and the recipes keep their seed aggregates. -/
def loadState (seedRecipes : List Recipe) (seedReviews : List Review) : RecipeState :=
  if seedReviews.length > 0 then
    { recipes := recomputeAggregates seedReviews seedRecipes, reviews := seedReviews }
  else
    { recipes := seedRecipes, reviews := [] }

/-- Input of addReview: the RecipeId and Rating of the submitted review (the
source also carries author fields and stamps dates, all omitted from the
model). -/
structure ReviewInput where
  RecipeId : Int
  Rating : ℚ

/-- Embedding of addReview (src/src/contexts/RecipeContext.tsx lines
409-433): the new review (with the supplied time-based ReviewId) is
prepended; the recipe with the matching RecipeId gets AggregatedRating set
to (sum of the previously stored matching ratings + the new rating) divided
by (their number + 1), and ReviewCount incremented by one. -/
def addReview (input : ReviewInput) (newReviewId : Int) (s : RecipeState) : RecipeState :=
  let newReview : Review := { ReviewId := newReviewId, RecipeId := input.RecipeId, Rating := input.Rating }
  let currentReviews := s.reviews.filter (fun r => r.RecipeId == input.RecipeId)
  let totalRatings := ratingSum currentReviews + input.Rating
  let newRating := totalRatings / ((currentReviews.length : ℚ) + 1)
  { recipes := s.recipes.map fun recipe =>
      if recipe.RecipeId == input.RecipeId then
        { recipe with AggregatedRating := newRating, ReviewCount := recipe.ReviewCount + 1 }
      else recipe
    reviews := newReview :: s.reviews }

/-- A sequence of addReview calls, each with its submitted input and
time-based ReviewId, applied in order. -/
def applyReviews (ops : List (ReviewInput × Int)) (s : RecipeState) : RecipeState :=
  ops.foldl (fun s op => addReview op.1 op.2 s) s

/-! ## BookmarkStore data model (src/unnamed/part_007)

Folders and bookmarks as in the FolderContext source.  Every mutating
operation of the source starts with an early return when no user is
authenticated (a no-op on the collections); the operations below model the
calls made with an authenticated user, whose id is passed explicitly where
the source body reads user.id.  Operations whose body never reads the user
(updateFolder, deleteFolder, removeBookmark, updateBookmark, getFolderById)
take no user argument, exactly as their bodies ignore it. -/
structure Bookmark where
  id : String
  recipeId : Int
  userId : String
  folderId : String
  rating : ℚ
  createdAt : String
deriving DecidableEq, Repr

/-- Folder record of the FolderContext source. -/
structure Folder where
  id : String
  name : String
  userId : String
  color : String
  icon : String
  createdAt : String
deriving DecidableEq, Repr

/-- Shared mutable state of FolderProvider: the folder and bookmark
collections. -/
structure BookmarkState where
  folders : List Folder
  bookmarks : List Bookmark
deriving Repr

/-- Embedding of createFolder (src/unnamed/part_007 lines 182-196): appends a
new folder owned by the current user, with the supplied time-based id and
creation stamp. -/
def createFolder (u : String) (name color icon : String) (newId createdAt : String)
    (s : BookmarkState) : BookmarkState :=
  { s with folders := s.folders ++
      [{ id := newId, name := name, userId := u, color := color, icon := icon,
         createdAt := createdAt }] }

/-- Embedding of updateFolder (src/unnamed/part_007 lines 198-209): merges
the supplied name/color/icon fields into every folder whose id matches
(absent patch fields leave the field unchanged, as the object spread does). -/
def updateFolder (folderId : String) (name? color? icon? : Option String)
    (s : BookmarkState) : BookmarkState :=
  { s with folders := s.folders.map fun folder =>
      if folder.id == folderId then
        { folder with
            name := name?.getD folder.name
            color := color?.getD folder.color
            icon := icon?.getD folder.icon }
      else folder }

/-- Embedding of deleteFolder (src/unnamed/part_007 lines 211-219): removes
every folder whose id matches and every bookmark whose folderId matches. -/
def deleteFolder (folderId : String) (s : BookmarkState) : BookmarkState :=
  { s with
      folders := s.folders.filter (fun folder => folder.id != folderId)
      bookmarks := s.bookmarks.filter (fun bookmark => bookmark.folderId != folderId) }

/-- Embedding of updateBookmark (src/unnamed/part_007 lines 255-264): merges
the supplied folderId/rating fields into every bookmark whose id matches. -/
def updateBookmark (bookmarkId : String) (folderId? : Option String) (rating? : Option ℚ)
    (s : BookmarkState) : BookmarkState :=
  { s with bookmarks := s.bookmarks.map fun bookmark =>
      if bookmark.id == bookmarkId then
        { bookmark with
            folderId := folderId?.getD bookmark.folderId
            rating := rating?.getD bookmark.rating }
      else bookmark }

/-- Embedding of addBookmark (src/unnamed/part_007 lines 221-246): when a
bookmark of the current user for this recipe already exists, the call
becomes updateBookmark on its id with both fields supplied; otherwise a new
bookmark (with the supplied time-based id and creation stamp) is appended. -/
def addBookmark (u : String) (recipeId : Int) (folderId : String) (rating : ℚ)
    (newId createdAt : String) (s : BookmarkState) : BookmarkState :=
  match s.bookmarks.find? (fun b => b.recipeId == recipeId && b.userId == u) with
  | some existing => updateBookmark existing.id (some folderId) (some rating) s
  | none =>
      { s with bookmarks := s.bookmarks ++
          [{ id := newId, recipeId := recipeId, userId := u, folderId := folderId,
             rating := rating, createdAt := createdAt }] }

/-- Embedding of removeBookmark (src/unnamed/part_007 lines 248-253): removes
every bookmark whose id matches. -/
def removeBookmark (bookmarkId : String) (s : BookmarkState) : BookmarkState :=
  { s with bookmarks := s.bookmarks.filter (fun bookmark => bookmark.id != bookmarkId) }

/-- Embedding of getBookmarksByFolder (src/unnamed/part_007 lines 266-272):
the bookmarks of the current user in the given folder. -/
def getBookmarksByFolder (u : String) (folderId : String) (s : BookmarkState) : List Bookmark :=
  s.bookmarks.filter (fun bookmark => bookmark.userId == u && bookmark.folderId == folderId)

/-- Embedding of getBookmarkByRecipeId (src/unnamed/part_007 lines 274-280):
the first bookmark of the current user for the given recipe. -/
def getBookmarkByRecipeId (u : String) (recipeId : Int) (s : BookmarkState) : Option Bookmark :=
  s.bookmarks.find? (fun bookmark => bookmark.userId == u && bookmark.recipeId == recipeId)

/-- Embedding of getUserFolders (src/unnamed/part_007 lines 282-286): the
folders of the current user. -/
def getUserFolders (u : String) (s : BookmarkState) : List Folder :=
  s.folders.filter (fun folder => folder.userId == u)

/-- Embedding of getFolderById (src/unnamed/part_007 lines 288-290): the
first folder with the given id; the body performs no user check. -/
def getFolderById (folderId : String) (s : BookmarkState) : Option Folder :=
  s.folders.find? (fun folder => folder.id == folderId)

/-- One call into the bookmark store, carrying the authenticated user where
the operation body reads it, plus the time-based fresh id and stamp for
operations that create a record. -/
inductive BookmarkOp where
  | add (u : String) (recipeId : Int) (folderId : String) (rating : ℚ)
      (newId createdAt : String)
  | update (bookmarkId : String) (folderId? : Option String) (rating? : Option ℚ)
  | remove (bookmarkId : String)
  | delFolder (folderId : String)

/-- Interpretation of one bookmark-store call. -/
def applyBookmarkOp (op : BookmarkOp) (s : BookmarkState) : BookmarkState :=
  match op with
  | .add u rid fid r nid t => addBookmark u rid fid r nid t s
  | .update bid f? r? => updateBookmark bid f? r? s
  | .remove bid => removeBookmark bid s
  | .delFolder fid => deleteFolder fid s

/-- A sequence of bookmark-store calls applied in order. -/
def applyBookmarkOps (ops : List BookmarkOp) (s : BookmarkState) : BookmarkState :=
  ops.foldl (fun s op => applyBookmarkOp op s) s

/-- At most one bookmark per (userId, recipeId) pair: no two distinct
positions of the collection carry the same pair. -/
def PairUnique (bs : List Bookmark) : Prop :=
  List.Pairwise (fun b₁ b₂ => ¬(b₁.userId = b₂.userId ∧ b₁.recipeId = b₂.recipeId)) bs

/-! ## Concrete exhibits used by witnesses and counterexamples -/

/-- Recipe whose Name contains the two-character string space-z. -/
def rA : Recipe :=
  { RecipeId := 1, Name := ['a', ' ', 'z'], Description := [], Keywords := [],
    RecipeIngredientParts := [], AggregatedRating := 0, ReviewCount := 0 }

/-- Recipe whose Name contains z but not space-z. -/
def rB : Recipe :=
  { RecipeId := 2, Name := ['a', 'z'], Description := [], Keywords := [],
    RecipeIngredientParts := [], AggregatedRating := 0, ReviewCount := 0 }

/-! ## Claim C8: empty or whitespace-only query -/

/-- Claim C8: when the query lower-cases and trims to the empty string, the
search returns the first 20 recipes of the collection unchanged and neither
the exact nor the fuzzy pass runs. -/
theorem searchRecipes_empty_query (q : List Char) (rs : List Recipe)
    (h : trimWs (toLowerL q) = []) :
    searchRecipesWithFuzzy q rs = rs.take 20 := by
  unfold searchRecipesWithFuzzy
  simp [h]

/-- Witness for C8 at the whitespace-only query consisting of one space and
a two-recipe collection. -/
theorem searchRecipes_empty_query_witness :
    trimWs (toLowerL [' ']) = [] ∧
    searchRecipesWithFuzzy [' '] [rA, rB] = ([rA, rB] : List Recipe).take 20 :=
  ⟨by decide, searchRecipes_empty_query [' '] [rA, rB] (by decide)⟩

/-! ## Claim C5: deleteFolder cascade -/

/-- Claim C5: immediately after deleteFolder f, no folder with id f remains,
getBookmarksByFolder on f returns the empty list for every user, and no
remaining bookmark references f. -/
theorem deleteFolder_cascade (f u : String) (s : BookmarkState) :
    (∀ fol ∈ (deleteFolder f s).folders, fol.id ≠ f) ∧
    getBookmarksByFolder u f (deleteFolder f s) = [] ∧
    (∀ b ∈ (deleteFolder f s).bookmarks, b.folderId ≠ f) := by
  refine ⟨?_, ?_, ?_⟩
  · intro fol hf
    rw [deleteFolder] at hf
    simp only [List.mem_filter, bne_iff_ne, ne_eq] at hf
    exact hf.2
  · apply List.filter_eq_nil_iff.mpr
    intro b hb
    rw [deleteFolder] at hb
    simp only [List.mem_filter, bne_iff_ne, ne_eq] at hb
    simp [hb.2]
  · intro b hb
    rw [deleteFolder] at hb
    simp only [List.mem_filter, bne_iff_ne, ne_eq] at hb
    exact hb.2

/-- Folder owned by user bob, target of the cross-user counterexample. -/
def bobFolder : Folder :=
  { id := "f1", name := "Fav", userId := "bob", color := "c", icon := "i", createdAt := "t0" }

/-- Bookmark owned by bob referencing folder f1. -/
def bobBookmark : Bookmark :=
  { id := "bk1", recipeId := 9, userId := "bob", folderId := "f1", rating := 5, createdAt := "t0" }

/-- State holding only records owned by bob; the authenticated user in the
counterexample is alice, who owns nothing here. -/
def crossSt : BookmarkState := { folders := [bobFolder], bookmarks := [bobBookmark] }

/-- Witness for C5: deleting folder f1 in a concrete state empties it and
removes the bookmark that referenced it. -/
theorem deleteFolder_cascade_witness :
    (∀ fol ∈ (deleteFolder "f1" crossSt).folders, fol.id ≠ "f1") ∧
    getBookmarksByFolder "bob" "f1" (deleteFolder "f1" crossSt) = [] ∧
    (∀ b ∈ (deleteFolder "f1" crossSt).bookmarks, b.folderId ≠ "f1") :=
  deleteFolder_cascade "f1" "bob" crossSt

/-! ## Claim C6: user scoping of the bookmark store -/

/-- Counterexample to C6 as stated: with alice authenticated (alice owns no
record of the state), getFolderById returns a folder owned by bob, and
deleteFolder called by alice removes the folder and bookmark owned by bob;
by-id operations of the store consult no user at all. -/
theorem bookmark_store_cross_user_counterexample :
    (∀ fol ∈ crossSt.folders, fol.userId ≠ "alice") ∧
    (∀ b ∈ crossSt.bookmarks, b.userId ≠ "alice") ∧
    getFolderById "f1" crossSt = some bobFolder ∧
    bobFolder.userId = "bob" ∧
    (deleteFolder "f1" crossSt).folders = [] ∧
    (deleteFolder "f1" crossSt).bookmarks = [] := by
  decide

/-- Amended claim C6: the collection-scanning reads getUserFolders,
getBookmarksByFolder and getBookmarkByRecipeId only return records owned by
the current user (the by-id lookups and mutations are not user-scoped). -/
theorem bookmark_reads_user_scoped (s : BookmarkState) (u fid : String) (rid : Int) :
    (∀ fol ∈ getUserFolders u s, fol.userId = u) ∧
    (∀ b ∈ getBookmarksByFolder u fid s, b.userId = u) ∧
    (∀ b, getBookmarkByRecipeId u rid s = some b → b.userId = u) := by
  refine ⟨?_, ?_, ?_⟩
  · intro fol hf
    rw [getUserFolders] at hf
    simp only [List.mem_filter, beq_iff_eq] at hf
    exact hf.2
  · intro b hb
    rw [getBookmarksByFolder] at hb
    simp only [List.mem_filter, Bool.and_eq_true, beq_iff_eq] at hb
    exact hb.2.1
  · intro b hb
    have := List.find?_some hb
    simp only [Bool.and_eq_true, beq_iff_eq] at this
    exact this.1

/-- Witness for the amended C6 at a concrete state owned by bob. -/
theorem bookmark_reads_user_scoped_witness :
    (∀ fol ∈ getUserFolders "bob" crossSt, fol.userId = "bob") ∧
    (∀ b ∈ getBookmarksByFolder "bob" "f1" crossSt, b.userId = "bob") ∧
    (∀ b, getBookmarkByRecipeId "bob" 9 crossSt = some b → b.userId = "bob") :=
  bookmark_reads_user_scoped crossSt "bob" "f1" 9

/-! ## Claim C7: id assignment in addRecipe -/

/-- Recipe carrying a negative seed RecipeId. -/
def negRecipe : Recipe :=
  { RecipeId := -5, Name := [], Description := [], Keywords := [],
    RecipeIngredientParts := [], AggregatedRating := 0, ReviewCount := 0 }

/-- Empty create input. -/
def emptyInput : AddRecipeInput :=
  { name := [], description := [], keywords := [], ingredientParts := [] }

/-- Counterexample to C7 as stated: on a collection whose only RecipeId is
-5, the code assigns -4, whereas the claimed formula max(existing, 0) + 1
yields 1. -/
theorem addRecipe_negative_id_counterexample :
    (addRecipe emptyInput [negRecipe]).1 = -4 ∧
    max (maxRecipeId ([negRecipe].map (fun r => r.RecipeId))) 0 + 1 = 1 ∧
    (addRecipe emptyInput [negRecipe]).1 ≠
      max (maxRecipeId ([negRecipe].map (fun r => r.RecipeId))) 0 + 1 := by
  decide

/-- The initial value of a fold by max is a lower bound of the fold, and so
is every list element. -/
theorem le_foldl_max (l : List Int) (a : Int) :
    a ≤ l.foldl max a ∧ ∀ x ∈ l, x ≤ l.foldl max a := by
  induction l generalizing a with
  | nil => simp
  | cons b l ih =>
    refine ⟨le_trans (le_max_left a b) (ih (max a b)).1, ?_⟩
    intro x hx
    rcases List.mem_cons.mp hx with rfl | hx
    · exact le_trans (le_max_right a x) (ih (max a x)).1
    · exact (ih (max a b)).2 x hx

/-- Amended claim C7: addRecipe assigns the new RecipeId as one more than
the maximum existing RecipeId (one more than zero on an empty collection);
in particular the assigned id is strictly greater than every pre-existing
RecipeId. -/
theorem addRecipe_id_strictly_greater (input : AddRecipeInput) (recipes : List Recipe) :
    (addRecipe input recipes).1 =
      (if 0 < recipes.length then maxRecipeId (recipes.map (fun r => r.RecipeId)) else 0) + 1 ∧
    ∀ r ∈ recipes, r.RecipeId < (addRecipe input recipes).1 := by
  refine ⟨rfl, ?_⟩
  intro r hr
  have hlen : 0 < recipes.length := List.length_pos.mpr (List.ne_nil_of_mem hr)
  have hmem : r.RecipeId ∈ recipes.map (fun r => r.RecipeId) :=
    List.mem_map.mpr ⟨r, hr, rfl⟩
  have hle : r.RecipeId ≤ maxRecipeId (recipes.map (fun r => r.RecipeId)) := by
    rcases hm : recipes.map (fun r => r.RecipeId) with _ | ⟨i, is⟩
    · rw [hm] at hmem; simp at hmem
    · rw [hm] at hmem
      rw [hm, maxRecipeId]
      rcases List.mem_cons.mp hmem with rfl | hmem'
      · exact (le_foldl_max is r.RecipeId).1
      · exact (le_foldl_max is i).2 _ hmem'
  show r.RecipeId < (if 0 < recipes.length then maxRecipeId (recipes.map (fun r => r.RecipeId)) else 0) + 1
  rw [if_pos hlen]
  omega

/-- Witness for the amended C7 at the one-element collection with RecipeId
-5: the assigned id is -4 and exceeds -5. -/
theorem addRecipe_id_strictly_greater_witness :
    (addRecipe emptyInput [negRecipe]).1 =
      (if 0 < ([negRecipe] : List Recipe).length
        then maxRecipeId ([negRecipe].map (fun r => r.RecipeId)) else 0) + 1 ∧
    ∀ r ∈ [negRecipe], r.RecipeId < (addRecipe emptyInput [negRecipe]).1 :=
  addRecipe_id_strictly_greater emptyInput [negRecipe]

/-! ## Claim C3: exact pass wins outright -/

/-- Modelled from the claim C3 wording: the recipe contains the query string
q itself (no trimming) as a case-insensitive substring of Name, Description,
a Keywords entry or a RecipeIngredientParts entry. -/
def recipeContainsLiteral (q : List Char) (r : Recipe) : Bool :=
  listContains (toLowerL r.Name) (toLowerL q) ||
  listContains (toLowerL r.Description) (toLowerL q) ||
  r.Keywords.any (fun k => listContains (toLowerL k) (toLowerL q)) ||
  r.RecipeIngredientParts.any (fun i => listContains (toLowerL i) (toLowerL q))

/-- Query with a leading space, non-empty after trimming. -/
def qUntrimmed : List Char := [' ', 'z']

/-- Counterexample to C3 as stated: for the query consisting of space then z,
recipe rA contains the query literally while rB does not, yet the search
returns both (the source matches against the trimmed query z), so the result
is not exactly the set of literal matches of q. -/
theorem search_literal_substring_counterexample :
    trimWs (toLowerL qUntrimmed) ≠ [] ∧
    recipeContainsLiteral qUntrimmed rA = true ∧
    recipeContainsLiteral qUntrimmed rB = false ∧
    searchRecipesWithFuzzy qUntrimmed [rA, rB] = [rA, rB] := by
  decide

/-- Amended claim C3: the substring matching of the exact pass uses the
lower-cased, trimmed query; whenever that trimmed query is non-empty and at
least one recipe matches it, the search returns exactly the recipes matching
it, in collection order, and every returned recipe is an exact match (so no
recipe matching only fuzzily appears). -/
theorem search_exact_pass_wins (q : List Char) (rs : List Recipe)
    (h1 : trimWs (toLowerL q) ≠ [])
    (h2 : rs.filter (recipeExactMatch (trimWs (toLowerL q))) ≠ []) :
    searchRecipesWithFuzzy q rs = rs.filter (recipeExactMatch (trimWs (toLowerL q))) ∧
    ∀ r ∈ searchRecipesWithFuzzy q rs, recipeExactMatch (trimWs (toLowerL q)) r = true := by
  have heq : searchRecipesWithFuzzy q rs = rs.filter (recipeExactMatch (trimWs (toLowerL q))) := by
    unfold searchRecipesWithFuzzy
    rw [if_neg h1, if_pos (List.length_pos.mpr h2)]
  refine ⟨heq, ?_⟩
  intro r hr
  rw [heq] at hr
  exact (List.mem_filter.mp hr).2

/-- Witness for the amended C3 at the query z over the two-recipe
collection, where both recipes match the exact pass. -/
theorem search_exact_pass_wins_witness :
    searchRecipesWithFuzzy ['z'] [rA, rB] =
      ([rA, rB] : List Recipe).filter (recipeExactMatch (trimWs (toLowerL ['z']))) ∧
    ∀ r ∈ searchRecipesWithFuzzy ['z'] [rA, rB],
      recipeExactMatch (trimWs (toLowerL ['z'])) r = true :=
  search_exact_pass_wins ['z'] [rA, rB] (by decide) (by decide)

/-! ## Claim C10: the upsert preserves identity, timestamp, length and order -/

/-- Claim C10: when a bookmark of the current user for the recipe already
exists, addBookmark leaves the length and order of the bookmark collection
unchanged; every position keeps its id, userId, recipeId and createdAt;
positions whose id differs from the found bookmark are untouched; and
positions carrying the found id receive exactly the new folderId and
rating. -/
theorem addBookmark_upsert_frame (u : String) (rid : Int) (fid : String) (r : ℚ)
    (nid t : String) (s : BookmarkState) (b₀ : Bookmark)
    (h : s.bookmarks.find? (fun b => b.recipeId == rid && b.userId == u) = some b₀) :
    (addBookmark u rid fid r nid t s).bookmarks.length = s.bookmarks.length ∧
    ∀ i (hi : i < s.bookmarks.length)
      (hi' : i < (addBookmark u rid fid r nid t s).bookmarks.length),
      (((addBookmark u rid fid r nid t s).bookmarks.get ⟨i, hi'⟩).id =
          (s.bookmarks.get ⟨i, hi⟩).id ∧
        ((addBookmark u rid fid r nid t s).bookmarks.get ⟨i, hi'⟩).userId =
          (s.bookmarks.get ⟨i, hi⟩).userId ∧
        ((addBookmark u rid fid r nid t s).bookmarks.get ⟨i, hi'⟩).recipeId =
          (s.bookmarks.get ⟨i, hi⟩).recipeId ∧
        ((addBookmark u rid fid r nid t s).bookmarks.get ⟨i, hi'⟩).createdAt =
          (s.bookmarks.get ⟨i, hi⟩).createdAt) ∧
      ((s.bookmarks.get ⟨i, hi⟩).id ≠ b₀.id →
        (addBookmark u rid fid r nid t s).bookmarks.get ⟨i, hi'⟩ =
          s.bookmarks.get ⟨i, hi⟩) ∧
      ((s.bookmarks.get ⟨i, hi⟩).id = b₀.id →
        ((addBookmark u rid fid r nid t s).bookmarks.get ⟨i, hi'⟩).folderId = fid ∧
        ((addBookmark u rid fid r nid t s).bookmarks.get ⟨i, hi'⟩).rating = r) := by
  have hb : (addBookmark u rid fid r nid t s).bookmarks =
      s.bookmarks.map fun b =>
        if b.id == b₀.id then { b with folderId := fid, rating := r } else b := by
    rw [addBookmark, h]
    simp [updateBookmark]
  refine ⟨by rw [hb]; exact List.length_map .., ?_⟩
  intro i hi hi'
  have hget : (addBookmark u rid fid r nid t s).bookmarks.get ⟨i, hi'⟩ =
      (fun b => if b.id == b₀.id then { b with folderId := fid, rating := r } else b)
        (s.bookmarks.get ⟨i, hi⟩) := by
    have := List.get_of_eq hb ⟨i, hi'⟩
    rw [this, List.get_map]
  rw [hget]
  dsimp only
  by_cases hid : (s.bookmarks.get ⟨i, hi⟩).id = b₀.id
  · rw [if_pos (show ((s.bookmarks.get ⟨i, hi⟩).id == b₀.id) = true from beq_iff_eq.mpr hid)]
    exact ⟨⟨rfl, rfl, rfl, rfl⟩, fun hne => absurd hid hne, fun _ => ⟨rfl, rfl⟩⟩
  · rw [if_neg (show ¬((s.bookmarks.get ⟨i, hi⟩).id == b₀.id) = true by simpa using hid)]
    exact ⟨⟨rfl, rfl, rfl, rfl⟩, fun _ => rfl, fun heq => absurd heq hid⟩

/-- State holding a single bookmark of alice for recipe 5 in folder A. -/
def aliceSt : BookmarkState :=
  { folders := []
    bookmarks := [{ id := "b1", recipeId := 5, userId := "alice", folderId := "A",
                    rating := 4, createdAt := "t1" }] }

/-- Witness for C10: re-bookmarking recipe 5 into folder B with rating 2 on
the concrete one-bookmark state. -/
theorem addBookmark_upsert_frame_witness :
    (addBookmark "alice" 5 "B" 2 "b2" "t2" aliceSt).bookmarks.length =
      aliceSt.bookmarks.length ∧
    ∀ i (hi : i < aliceSt.bookmarks.length)
      (hi' : i < (addBookmark "alice" 5 "B" 2 "b2" "t2" aliceSt).bookmarks.length),
      (((addBookmark "alice" 5 "B" 2 "b2" "t2" aliceSt).bookmarks.get ⟨i, hi'⟩).id =
          (aliceSt.bookmarks.get ⟨i, hi⟩).id ∧
        ((addBookmark "alice" 5 "B" 2 "b2" "t2" aliceSt).bookmarks.get ⟨i, hi'⟩).userId =
          (aliceSt.bookmarks.get ⟨i, hi⟩).userId ∧
        ((addBookmark "alice" 5 "B" 2 "b2" "t2" aliceSt).bookmarks.get ⟨i, hi'⟩).recipeId =
          (aliceSt.bookmarks.get ⟨i, hi⟩).recipeId ∧
        ((addBookmark "alice" 5 "B" 2 "b2" "t2" aliceSt).bookmarks.get ⟨i, hi'⟩).createdAt =
          (aliceSt.bookmarks.get ⟨i, hi⟩).createdAt) ∧
      ((aliceSt.bookmarks.get ⟨i, hi⟩).id ≠
          ({ id := "b1", recipeId := 5, userId := "alice", folderId := "A",
             rating := 4, createdAt := "t1" } : Bookmark).id →
        (addBookmark "alice" 5 "B" 2 "b2" "t2" aliceSt).bookmarks.get ⟨i, hi'⟩ =
          aliceSt.bookmarks.get ⟨i, hi⟩) ∧
      ((aliceSt.bookmarks.get ⟨i, hi⟩).id =
          ({ id := "b1", recipeId := 5, userId := "alice", folderId := "A",
             rating := 4, createdAt := "t1" } : Bookmark).id →
        ((addBookmark "alice" 5 "B" 2 "b2" "t2" aliceSt).bookmarks.get ⟨i, hi'⟩).folderId = "B" ∧
        ((addBookmark "alice" 5 "B" 2 "b2" "t2" aliceSt).bookmarks.get ⟨i, hi'⟩).rating = 2) :=
  addBookmark_upsert_frame "alice" 5 "B" 2 "b2" "t2" aliceSt
    { id := "b1", recipeId := 5, userId := "alice", folderId := "A",
      rating := 4, createdAt := "t1" }
    (by decide)

/-! ## Claim C1: at most one bookmark per (userId, recipeId) pair -/

/-- Mapping a function that preserves userId and recipeId preserves pair
uniqueness. -/
theorem pairUnique_map {f : Bookmark → Bookmark}
    (hf : ∀ b, (f b).userId = b.userId ∧ (f b).recipeId = b.recipeId)
    {bs : List Bookmark} (h : PairUnique bs) : PairUnique (bs.map f) := by
  rw [PairUnique, List.pairwise_map]
  refine h.imp ?_
  intro a b hab
  rw [(hf a).1, (hf a).2, (hf b).1, (hf b).2]
  exact hab

/-- updateBookmark preserves pair uniqueness: it only rewrites folderId and
rating. -/
theorem pairUnique_updateBookmark (bid : String) (f? : Option String) (r? : Option ℚ)
    (s : BookmarkState) (h : PairUnique s.bookmarks) :
    PairUnique (updateBookmark bid f? r? s).bookmarks := by
  refine pairUnique_map ?_ h
  intro b
  dsimp
  split <;> exact ⟨rfl, rfl⟩

/-- Any filtering of the bookmark collection preserves pair uniqueness. -/
theorem pairUnique_filter (p : Bookmark → Bool) {bs : List Bookmark}
    (h : PairUnique bs) : PairUnique (bs.filter p) :=
  h.sublist (List.filter_sublist bs)

/-- addBookmark preserves pair uniqueness: either it updates in place, or
the pair was absent and the new bookmark is appended. -/
theorem pairUnique_addBookmark (u : String) (rid : Int) (fid : String) (r : ℚ)
    (nid t : String) (s : BookmarkState) (h : PairUnique s.bookmarks) :
    PairUnique (addBookmark u rid fid r nid t s).bookmarks := by
  rw [addBookmark]
  cases hf : s.bookmarks.find? (fun b => b.recipeId == rid && b.userId == u) with
  | some b₀ => exact pairUnique_updateBookmark b₀.id (some fid) (some r) s h
  | none =>
    show PairUnique (s.bookmarks ++ [_])
    rw [PairUnique, List.pairwise_append]
    refine ⟨h, List.pairwise_singleton _ _, ?_⟩
    intro a ha b hb
    simp only [List.mem_singleton] at hb
    subst hb
    have hnp := List.find?_eq_none.mp hf a ha
    simp only [Bool.and_eq_true, beq_iff_eq, not_and] at hnp
    dsimp
    intro hcontra
    exact hnp hcontra.2 hcontra.1

/-- Every bookmark-store call preserves pair uniqueness. -/
theorem pairUnique_applyBookmarkOp (op : BookmarkOp) (s : BookmarkState)
    (h : PairUnique s.bookmarks) : PairUnique (applyBookmarkOp op s).bookmarks := by
  cases op with
  | add u rid fid r nid t => exact pairUnique_addBookmark u rid fid r nid t s h
  | update bid f? r? => exact pairUnique_updateBookmark bid f? r? s h
  | remove bid => exact pairUnique_filter _ h
  | delFolder fid => exact pairUnique_filter _ h

/-- Every sequence of bookmark-store calls preserves pair uniqueness. -/
theorem pairUnique_applyBookmarkOps (ops : List BookmarkOp) (s : BookmarkState)
    (h : PairUnique s.bookmarks) : PairUnique (applyBookmarkOps ops s).bookmarks := by
  induction ops generalizing s with
  | nil => exact h
  | cons op ops ih => exact ih (applyBookmarkOp op s) (pairUnique_applyBookmarkOp op s h)

/-- On a pair-unique collection, filtering for a pair that some member
carries returns exactly that member. -/
theorem filter_pair_unique (u : String) (rid : Int) (bs : List Bookmark)
    (h : PairUnique bs) (b₀ : Bookmark) (hmem : b₀ ∈ bs)
    (hpred : (b₀.recipeId == rid && b₀.userId == u) = true) :
    bs.filter (fun b => b.recipeId == rid && b.userId == u) = [b₀] := by
  induction bs with
  | nil => simp at hmem
  | cons a bs ih =>
    rcases List.pairwise_cons.mp h with ⟨ha, h'⟩
    simp only [Bool.and_eq_true, beq_iff_eq] at hpred
    rcases List.mem_cons.mp hmem with rfl | hmem'
    · rw [List.filter_cons_of_pos (by simp [hpred.1, hpred.2])]
      rw [List.filter_eq_nil_iff.mpr]
      intro b hb
      simp only [Bool.and_eq_true, beq_iff_eq, not_and]
      intro hb1 hb2
      exact ha b hb ⟨hpred.2.symm ▸ hb2.symm ▸ rfl, hpred.1.symm ▸ hb1.symm ▸ rfl⟩
    · have hpa : ¬(a.recipeId == rid && a.userId == u) = true := by
        simp only [Bool.and_eq_true, beq_iff_eq, not_and]
        intro ha1 ha2
        exact ha b₀ hmem' ⟨ha2.symm ▸ hpred.2.symm ▸ rfl, ha1.symm ▸ hpred.1.symm ▸ rfl⟩
      simp only [List.filter_cons, if_neg hpa]
      exact ih h' hmem'

/-- After addBookmark on a pair-unique collection, exactly one bookmark for
the pair remains and it carries the folderId and rating of the call. -/
theorem addBookmark_last_write (u : String) (rid : Int) (fid : String) (r : ℚ)
    (nid t : String) (s : BookmarkState) (h : PairUnique s.bookmarks) :
    ∃ b, (addBookmark u rid fid r nid t s).bookmarks.filter
        (fun b => b.recipeId == rid && b.userId == u) = [b] ∧
      b.folderId = fid ∧ b.rating = r := by
  rw [addBookmark]
  cases hf : s.bookmarks.find? (fun b => b.recipeId == rid && b.userId == u) with
  | none =>
    refine ⟨⟨nid, rid, u, fid, r, t⟩, ?_, rfl, rfl⟩
    show (s.bookmarks ++ [_]).filter _ = _
    rw [List.filter_append]
    rw [List.filter_eq_nil_iff.mpr (fun a ha => by simpa using List.find?_eq_none.mp hf a ha)]
    rw [List.nil_append, List.filter_cons_of_pos (by simp)]
    rfl
  | some b₀ =>
    have hmem := List.mem_of_find?_eq_some hf
    have hpred := List.find?_some hf
    show ∃ b : Bookmark, (updateBookmark b₀.id (some fid) (some r) s).bookmarks.filter
        (fun b => b.recipeId == rid && b.userId == u) = [b] ∧
      b.folderId = fid ∧ b.rating = r
    rw [updateBookmark]
    simp only [Option.getD_some]
    refine ⟨{ b₀ with folderId := fid, rating := r }, ?_, rfl, rfl⟩
    rw [List.filter_map]
    have hcomp : ((fun b : Bookmark => b.recipeId == rid && b.userId == u) ∘
        fun b : Bookmark => if (b.id == b₀.id) = true then
          { b with folderId := fid, rating := r } else b) =
        (fun b : Bookmark => b.recipeId == rid && b.userId == u) := by
      funext b
      dsimp [Function.comp]
      split <;> rfl
    rw [hcomp, filter_pair_unique u rid s.bookmarks h b₀ hmem hpred]
    rw [List.map_singleton, if_pos (beq_iff_eq.mpr rfl)]

/-- Claim C1: starting from a pair-unique bookmark collection, any sequence
of addBookmark, updateBookmark, removeBookmark and deleteFolder calls keeps
at most one bookmark per (userId, recipeId) pair, and after a final
addBookmark for a pair that bookmark is unique for the pair and carries the
folderId and rating of that final call. -/
theorem bookmark_pair_unique_invariant (s₀ : BookmarkState) (h : PairUnique s₀.bookmarks)
    (ops : List BookmarkOp) (u : String) (rid : Int) (fid : String) (r : ℚ)
    (nid t : String) :
    PairUnique (applyBookmarkOps ops s₀).bookmarks ∧
    PairUnique (addBookmark u rid fid r nid t (applyBookmarkOps ops s₀)).bookmarks ∧
    ∃ b, (addBookmark u rid fid r nid t (applyBookmarkOps ops s₀)).bookmarks.filter
        (fun b => b.recipeId == rid && b.userId == u) = [b] ∧
      b.folderId = fid ∧ b.rating = r := by
  have h1 := pairUnique_applyBookmarkOps ops s₀ h
  exact ⟨h1, pairUnique_addBookmark u rid fid r nid t _ h1,
    addBookmark_last_write u rid fid r nid t _ h1⟩

/-- Empty bookmark store. -/
def emptyBookmarkState : BookmarkState := { folders := [], bookmarks := [] }

/-- Witness for C1: starting from the empty store, bookmarking recipe 5 into
folder A with rating 4 and then re-bookmarking it into folder B with rating
2 leaves exactly one bookmark for the pair, carrying folder B and rating 2
(example scenario 4 of the specification). -/
theorem bookmark_pair_unique_invariant_witness :
    PairUnique (applyBookmarkOps [BookmarkOp.add "alice" 5 "A" 4 "b1" "t1"]
      emptyBookmarkState).bookmarks ∧
    PairUnique (addBookmark "alice" 5 "B" 2 "b2" "t2"
      (applyBookmarkOps [BookmarkOp.add "alice" 5 "A" 4 "b1" "t1"]
        emptyBookmarkState)).bookmarks ∧
    ∃ b, (addBookmark "alice" 5 "B" 2 "b2" "t2"
        (applyBookmarkOps [BookmarkOp.add "alice" 5 "A" 4 "b1" "t1"]
          emptyBookmarkState)).bookmarks.filter
        (fun b => b.recipeId == 5 && b.userId == "alice") = [b] ∧
      b.folderId = "B" ∧ b.rating = 2 :=
  bookmark_pair_unique_invariant emptyBookmarkState List.Pairwise.nil
    [BookmarkOp.add "alice" 5 "A" 4 "b1" "t1"] "alice" 5 "B" 2 "b2" "t2"

/-! ## Claim C4: review aggregates stay consistent -/

/-- Shifting the initial value out of the rating fold. -/
theorem ratingSum_shift (l : List Review) (x : ℚ) :
    l.foldl (fun sum r => sum + r.Rating) x = x + ratingSum l := by
  induction l generalizing x with
  | nil => simp [ratingSum]
  | cons a l ih =>
    rw [ratingSum]
    simp only [List.foldl_cons]
    rw [ih, ih]
    ring

/-- The rating sum of a cons. -/
theorem ratingSum_cons (a : Review) (l : List Review) :
    ratingSum (a :: l) = a.Rating + ratingSum l := by
  rw [ratingSum]
  simp only [List.foldl_cons]
  rw [ratingSum_shift]
  ring

/-- Aggregate consistency: every recipe of the state carries as ReviewCount
the number of stored reviews with its RecipeId, and as AggregatedRating
their mean whenever that number is positive. -/
def AggConsistent (s : RecipeState) : Prop :=
  ∀ rec ∈ s.recipes,
    rec.ReviewCount = ((s.reviews.filter (fun v => v.RecipeId == rec.RecipeId)).length : Int) ∧
    (0 < (s.reviews.filter (fun v => v.RecipeId == rec.RecipeId)).length →
      rec.AggregatedRating =
        ratingSum (s.reviews.filter (fun v => v.RecipeId == rec.RecipeId)) /
          ((s.reviews.filter (fun v => v.RecipeId == rec.RecipeId)).length : ℚ))

/-- Seed-rating preservation: the recipe list keeps the length of the seed
list, every position keeps its RecipeId, and a position with no stored
review keeps the AggregatedRating it had in the seed. -/
def RatingPreserved (seedRecipes : List Recipe) (s : RecipeState) : Prop :=
  s.recipes.length = seedRecipes.length ∧
  ∀ i (hi : i < s.recipes.length) (hi' : i < seedRecipes.length),
    (s.recipes.get ⟨i, hi⟩).RecipeId = (seedRecipes.get ⟨i, hi'⟩).RecipeId ∧
    ((s.reviews.filter
        (fun v => v.RecipeId == (s.recipes.get ⟨i, hi⟩).RecipeId)).length = 0 →
      (s.recipes.get ⟨i, hi⟩).AggregatedRating =
        (seedRecipes.get ⟨i, hi'⟩).AggregatedRating)

/-- Loading with a non-empty seed review list establishes both invariants. -/
theorem loadState_consistent (rs : List Recipe) (vs : List Review) (hvs : vs ≠ []) :
    AggConsistent (loadState rs vs) ∧ RatingPreserved rs (loadState rs vs) := by
  have hpos : vs.length > 0 := List.length_pos.mpr hvs
  rw [loadState, if_pos hpos]
  constructor
  · intro rec hrec
    rw [recomputeAggregates] at hrec
    obtain ⟨r0, hr0, rfl⟩ := List.mem_map.mp hrec
    refine ⟨rfl, ?_⟩
    intro hpos2
    show (if 0 < (vs.filter (fun v => v.RecipeId == r0.RecipeId)).length
        then ratingSum (vs.filter (fun v => v.RecipeId == r0.RecipeId)) /
          ((vs.filter (fun v => v.RecipeId == r0.RecipeId)).length : ℚ)
        else r0.AggregatedRating) = _
    rw [if_pos (by exact_mod_cast hpos2)]
  · refine ⟨List.length_map .., ?_⟩
    intro i hi hi'
    have hg : (recomputeAggregates vs rs).get ⟨i, hi⟩ =
        (fun recipe : Recipe =>
          { recipe with
              AggregatedRating :=
                if 0 < (vs.filter (fun r => r.RecipeId == recipe.RecipeId)).length
                then ratingSum (vs.filter (fun r => r.RecipeId == recipe.RecipeId)) /
                  (((vs.filter (fun r => r.RecipeId == recipe.RecipeId)).length : ℕ) : ℚ)
                else recipe.AggregatedRating
              ReviewCount :=
                (((vs.filter (fun r => r.RecipeId == recipe.RecipeId)).length : ℕ) : Int) })
          (rs.get ⟨i, hi'⟩) := List.get_map ..
    refine ⟨by rw [hg], ?_⟩
    intro hz
    rw [hg] at hz ⊢
    dsimp only at hz ⊢
    rw [if_neg (by omega)]

/-- One addReview call preserves aggregate consistency. -/
theorem addReview_aggConsistent (inp : ReviewInput) (nid : Int) (s : RecipeState)
    (h : AggConsistent s) : AggConsistent (addReview inp nid s) := by
  intro rec hrec
  simp only [addReview] at hrec
  obtain ⟨r0, hr0, rfl⟩ := List.mem_map.mp hrec
  obtain ⟨hcount, hmean⟩ := h r0 hr0
  show _ ∧ _
  by_cases hc : r0.RecipeId = inp.RecipeId
  · rw [if_pos (by exact beq_iff_eq.mpr (by rw [hc]))]
    dsimp only [addReview]
    have hrid : ({ r0 with
        AggregatedRating := (ratingSum (s.reviews.filter (fun r => r.RecipeId == inp.RecipeId))
            + inp.Rating) /
          (((s.reviews.filter (fun r => r.RecipeId == inp.RecipeId)).length : ℚ) + 1)
        ReviewCount := r0.ReviewCount + 1 } : Recipe).RecipeId = r0.RecipeId := rfl
    rw [hrid]
    have hfc : (({ ReviewId := nid, RecipeId := inp.RecipeId, Rating := inp.Rating } :
        Review) :: s.reviews).filter (fun v => v.RecipeId == r0.RecipeId) =
        ({ ReviewId := nid, RecipeId := inp.RecipeId, Rating := inp.Rating } : Review) ::
          s.reviews.filter (fun v => v.RecipeId == r0.RecipeId) :=
      List.filter_cons_of_pos (by simp [hc])
    rw [hfc]
    constructor
    · rw [List.length_cons]
      push_cast
      omega
    · intro _
      rw [ratingSum_cons, List.length_cons]
      dsimp only
      rw [hc]
      push_cast
      ring
  · rw [if_neg (by simp [hc])]
    have hrev2 : (addReview inp nid s).reviews =
        ({ ReviewId := nid, RecipeId := inp.RecipeId, Rating := inp.Rating } : Review) ::
          s.reviews := rfl
    have hfc : (({ ReviewId := nid, RecipeId := inp.RecipeId, Rating := inp.Rating } :
        Review) :: s.reviews).filter (fun v => v.RecipeId == r0.RecipeId) =
        s.reviews.filter (fun v => v.RecipeId == r0.RecipeId) :=
      List.filter_cons_of_neg (by simp; intro hcc; exact absurd hcc.symm hc)
    rw [hrev2, hfc]
    exact ⟨hcount, hmean⟩

/-- One addReview call preserves seed-rating preservation. -/
theorem addReview_ratingPreserved (seed : List Recipe) (inp : ReviewInput) (nid : Int)
    (s : RecipeState) (h : RatingPreserved seed s) :
    RatingPreserved seed (addReview inp nid s) := by
  obtain ⟨hlen, hidx⟩ := h
  have hlen' : (addReview inp nid s).recipes.length = s.recipes.length := by
    simp only [addReview]
    exact List.length_map ..
  refine ⟨by rw [hlen', hlen], ?_⟩
  intro i hi hi'
  have hi0 : i < s.recipes.length := by rw [hlen'] at hi; exact hi
  obtain ⟨hid, hz⟩ := hidx i hi0 hi'
  have hg : (addReview inp nid s).recipes.get ⟨i, hi⟩ =
      (fun recipe : Recipe =>
        if recipe.RecipeId == inp.RecipeId then
          { recipe with
              AggregatedRating :=
                (ratingSum (s.reviews.filter (fun r => r.RecipeId == inp.RecipeId))
                    + inp.Rating) /
                  (((s.reviews.filter (fun r => r.RecipeId == inp.RecipeId)).length : ℚ) + 1)
              ReviewCount := recipe.ReviewCount + 1 }
        else recipe) (s.recipes.get ⟨i, hi0⟩) := by
    simp only [addReview]
    exact List.get_map ..
  have hrev : (addReview inp nid s).reviews =
      ({ ReviewId := nid, RecipeId := inp.RecipeId, Rating := inp.Rating } : Review) ::
        s.reviews := rfl
  rw [hg, hrev]
  dsimp only
  by_cases hc : (s.recipes.get ⟨i, hi0⟩).RecipeId = inp.RecipeId
  · rw [if_pos (beq_iff_eq.mpr hc)]
    dsimp only
    refine ⟨hid, ?_⟩
    intro hz0
    exfalso
    rw [List.filter_cons_of_pos (by simp; exact hc.symm)] at hz0
    simp at hz0
  · rw [if_neg (by simpa using hc)]
    refine ⟨hid, ?_⟩
    intro hz0
    apply hz
    rw [List.filter_cons_of_neg (by simp; intro hcc; exact absurd hcc.symm hc)] at hz0
    exact hz0

/-- A sequence of addReview calls preserves both invariants. -/
theorem applyReviews_preserves (ops : List (ReviewInput × Int)) (seed : List Recipe)
    (s : RecipeState) (h1 : AggConsistent s) (h2 : RatingPreserved seed s) :
    AggConsistent (applyReviews ops s) ∧ RatingPreserved seed (applyReviews ops s) := by
  induction ops generalizing s with
  | nil => exact ⟨h1, h2⟩
  | cons op ops ih =>
    exact ih (addReview op.1 op.2 s) (addReview_aggConsistent op.1 op.2 s h1)
      (addReview_ratingPreserved seed op.1 op.2 s h2)

/-- Claim C4: after the load-time recomputation (run whenever the seed
review list is non-empty) and any sequence of addReview calls, every recipe
carries as ReviewCount the number of stored reviews with its RecipeId and as
AggregatedRating their exact mean whenever that number is positive, and a
recipe with no matching review keeps its seed rating unchanged. -/
theorem review_aggregate_consistency (seedRecipes : List Recipe) (seedReviews : List Review)
    (hseed : seedReviews ≠ []) (ops : List (ReviewInput × Int)) :
    AggConsistent (applyReviews ops (loadState seedRecipes seedReviews)) ∧
    RatingPreserved seedRecipes (applyReviews ops (loadState seedRecipes seedReviews)) := by
  obtain ⟨h1, h2⟩ := loadState_consistent seedRecipes seedReviews hseed
  exact applyReviews_preserves ops seedRecipes _ h1 h2

/-- Seed recipe for the C4 witness, carrying a stale seed ReviewCount. -/
def recW : Recipe :=
  { RecipeId := 1, Name := ['c'], Description := [], Keywords := [],
    RecipeIngredientParts := [], AggregatedRating := 3, ReviewCount := 7 }

/-- Witness for C4: one seed review of rating 5 and two added reviews of
ratings 4 and 2 on recipe 1. -/
theorem review_aggregate_consistency_witness :
    AggConsistent (applyReviews [({ RecipeId := 1, Rating := 4 }, 100),
        ({ RecipeId := 1, Rating := 2 }, 101)]
      (loadState [recW] [{ ReviewId := 10, RecipeId := 1, Rating := 5 }])) ∧
    RatingPreserved [recW] (applyReviews [({ RecipeId := 1, Rating := 4 }, 100),
        ({ RecipeId := 1, Rating := 2 }, 101)]
      (loadState [recW] [{ ReviewId := 10, RecipeId := 1, Rating := 5 }])) :=
  review_aggregate_consistency [recW] [{ ReviewId := 10, RecipeId := 1, Rating := 5 }]
    (by decide) [({ RecipeId := 1, Rating := 4 }, 100), ({ RecipeId := 1, Rating := 2 }, 101)]

/-! ## Claim C2: the fuzzy acceptance threshold -/

/-- Modelled from the claim C2 wording: accept when some target word w of
length at least 3 and some source word v of length at least 3 satisfy
distance(v, w) at most max(floor(length(w) * 0.2), 1), the threshold being
computed from the length of each individual target word. -/
def fuzzyMatchPerWordThreshold (source target : List Char) : Bool :=
  (splitWs (toLowerL target)).any fun word =>
    if word.length < 3 then false
    else (splitWs (toLowerL source)).any fun sourceWord =>
      if sourceWord.length < 3 then false
      else decide (getLevenshteinDistance sourceWord word ≤ max (word.length / 5) 1)

/-- Source string of the C2 counterexample. -/
def c2src : List Char := ['a', 'x', 'c', 'x']

/-- Target string of the C2 counterexample: eleven characters, so the
whole-target threshold is 2, while both real words have length 4 and a
per-word threshold of 1. -/
def c2tgt : List Char := ['a', 'b', 'c', 'd', ' ', 'a', 'b', 'c', 'd', ' ', 'a']

/-- Counterexample to C2 as stated: neither string contains the other after
case folding, isFuzzyMatch accepts (distance 2 is within the threshold
derived from the whole eleven-character target), yet no pair of words
satisfies the per-target-word threshold of the claim. -/
theorem isFuzzyMatch_per_word_counterexample :
    listContains (toLowerL c2src) (toLowerL c2tgt) = false ∧
    listContains (toLowerL c2tgt) (toLowerL c2src) = false ∧
    isFuzzyMatch c2src c2tgt = true ∧
    fuzzyMatchPerWordThreshold c2src c2tgt = false := by
  decide

/-- Amended claim C2: in fuzzyMatch at tolerance 0.2, when both strings are
non-empty and after case folding neither contains the other, the result is
true iff some whitespace-delimited word w of the folded target with length
at least 3 and some word v of the folded source with length at least 3 have
Levenshtein distance at most max(floor(length(target) * 0.2), 1) — the
threshold is computed once from the length of the whole target string, not
from each target word. -/
theorem isFuzzyMatch_whole_target_threshold (s t : List Char) (hs : s ≠ []) (ht : t ≠ [])
    (h1 : listContains (toLowerL s) (toLowerL t) = false)
    (h2 : listContains (toLowerL t) (toLowerL s) = false) :
    isFuzzyMatch s t = true ↔
      ∃ w ∈ splitWs (toLowerL t), 3 ≤ w.length ∧
        ∃ v ∈ splitWs (toLowerL s), 3 ≤ v.length ∧
          getLevenshteinDistance v w ≤ max ((toLowerL t).length / 5) 1 := by
  rw [isFuzzyMatch]
  rw [if_neg (by simp [hs, ht]), if_neg (by simp [h1, h2])]
  rw [List.any_eq_true]
  constructor
  · rintro ⟨w, hw, hcond⟩
    by_cases h3 : w.length < 3
    · rw [if_pos h3] at hcond
      exact absurd hcond (by simp)
    · rw [if_neg h3] at hcond
      rw [List.any_eq_true] at hcond
      obtain ⟨v, hv, hc2⟩ := hcond
      by_cases h4 : v.length < 3
      · rw [if_pos h4] at hc2
        exact absurd hc2 (by simp)
      · rw [if_neg h4] at hc2
        exact ⟨w, hw, by omega, v, hv, by omega, by simpa using hc2⟩
  · rintro ⟨w, hw, hw3, v, hv, hv3, hd⟩
    refine ⟨w, hw, ?_⟩
    rw [if_neg (by omega)]
    rw [List.any_eq_true]
    refine ⟨v, hv, ?_⟩
    rw [if_neg (by omega)]
    simpa using hd

/-- Source word of the C2 witness (chocolate). -/
def cSrc : List Char := ['c', 'h', 'o', 'c', 'o', 'l', 'a', 't', 'e']

/-- Target word of the C2 witness (a typo of chocolate). -/
def cTgt : List Char := ['c', 'h', 'o', 'c', 'l', 'a', 't', 'e']

/-- Witness for the amended C2 at the chocolate/choclate pair of the
specification example scenario 2. -/
theorem isFuzzyMatch_whole_target_threshold_witness :
    isFuzzyMatch cSrc cTgt = true ↔
      ∃ w ∈ splitWs (toLowerL cTgt), 3 ≤ w.length ∧
        ∃ v ∈ splitWs (toLowerL cSrc), 3 ≤ v.length ∧
          getLevenshteinDistance v w ≤ max ((toLowerL cTgt).length / 5) 1 :=
  isFuzzyMatch_whole_target_threshold cSrc cTgt (by decide) (by decide) (by decide) (by decide)
